import Mathlib

/-
Verification of the semantic relevance engine of the DeepFocus repository.

The definitions below are a shallow embedding of the TypeScript sources:
  * src/ml/tokenizer.ts   — tokenize, createSlidingWindows, calculate75thPercentile
  * src/ml/embeddings.ts  — cosineSimilarity, EmbeddingModelSingleton.getStatus
  * src/background.ts     — precomputeKeywordEmbeddings, computePageSimilarity

JavaScript numbers are modelled as real numbers (exact arithmetic); integer
quantities (token counts, indices, fuel) are modelled as Nat/Int.  The JS
`for` loop of createSlidingWindows is modelled with explicit fuel: a `none`
result means the loop did not terminate within the fuel bound, and a
divergence theorem quantifies over all fuel values.  Asynchronous model
state (the embedding backend, the lifecycle status, the keyword cache) is
passed explicitly: `computeEmbedding` is the backend call, which may fail
(`Except.error` models a thrown exception).
-/

/-- A sliding window over the token sequence (interface SlidingWindow of
src/ml/types.ts): the joined text plus start/end token indices.  Indices are
integers because the JS loop variable is a plain number. -/
structure SlidingWindow where
  text : String
  startIndex : Int
  endIndex : Int
deriving DecidableEq, Repr

/-- Splitting on whitespace runs: the composition
`split(-s+).filter(token.length > 0)` of tokenize, written as one structural
pass so that it evaluates inside the kernel.  It returns exactly the maximal
non-whitespace runs, which is what the JS split-then-filter returns. -/
def splitWsAux : List Char → List Char → List String
  | [], acc => if acc.isEmpty then [] else [String.mk acc.reverse]
  | c :: cs, acc =>
    if c.isWhitespace then
      if acc.isEmpty then splitWsAux cs []
      else String.mk acc.reverse :: splitWsAux cs []
    else splitWsAux cs (c :: acc)

/-- tokenize of src/ml/tokenizer.ts: lower-case, split on whitespace runs,
drop empty tokens. -/
def tokenize (text : String) : List String :=
  splitWsAux (text.data.map Char.toLower) []

/-- Array.prototype.join(" "), used for `tokens.join(' ')`. -/
def joinSpace : List String → String
  | [] => ""
  | [t] => t
  | t :: ts => t ++ " " ++ joinSpace ts

/-- Clamping of one index as done by JavaScript Array.prototype.slice:
a negative index counts from the end (clamped below by 0), a non-negative
index is clamped above by the length. -/
def jsSliceIdx (len : Nat) (i : Int) : Nat :=
  if i < 0 then ((len : Int) + i).toNat else min i.toNat len

/-- JavaScript Array.prototype.slice(start, stop). -/
def jsSlice {α : Type} (l : List α) (start stop : Int) : List α :=
  let s := jsSliceIdx l.length start
  let e := jsSliceIdx l.length stop
  (l.drop s).take (e - s)

/-- The `for (let i = 0; i < tokens.length; i += stride)` loop of
createSlidingWindows, in direct style with explicit fuel.  Each constructor
of the JS loop body is kept: the too-small-window break (`4 * length <
windowSize` is the exact integer form of `length < windowSize * 0.25`), the
push, and the reached-the-end break.  `none` models non-termination. -/
def slidingLoop (tokens : List String) (windowSize overlap : Nat) :
    Nat → Int → Option (List SlidingWindow)
  | 0, _ => none
  | fuel + 1, i =>
    if i < (tokens.length : Int) then
      let windowTokens := jsSlice tokens i (i + (windowSize : Int))
      if 4 * windowTokens.length < windowSize then
        some []
      else
        let w : SlidingWindow := ⟨joinSpace windowTokens, i, i + (windowTokens.length : Int)⟩
        if (tokens.length : Int) ≤ i + (windowSize : Int) then
          some [w]
        else
          match slidingLoop tokens windowSize overlap fuel (i + ((windowSize : Int) - (overlap : Int))) with
          | none => none
          | some ws => some (w :: ws)
    else
      some []

/-- createSlidingWindows of src/ml/tokenizer.ts.  The fuel
`tokens.length + 2` is enough for every terminating run of the JS loop with
positive stride; `none` therefore means the JS loop diverges. -/
def createSlidingWindows (text : String) (windowSize overlap : Nat) :
    Option (List SlidingWindow) :=
  let tokens := tokenize text
  if tokens.length ≤ windowSize then
    some [⟨joinSpace tokens, 0, (tokens.length : Int)⟩]
  else
    slidingLoop tokens windowSize overlap (tokens.length + 2) 0

/-- calculate75thPercentile of src/ml/tokenizer.ts: 0 for the empty list,
the sole element for a singleton, otherwise sort descending and take the
element at index `Math.floor(length * 0.25)` (exactly `length / 4`). -/
noncomputable def calculate75thPercentile (values : List ℝ) : ℝ :=
  if values.length = 0 then 0
  else if values.length = 1 then values.headI
  else
    let sorted := values.insertionSort (fun a b => b ≤ a)
    sorted.getD (sorted.length / 4) 0

/-- An embedding vector (Float32Array), modelled with exact real entries. -/
def EmbVec : Type := List ℝ

/-- The `normA += a[i] * a[i]` accumulation of cosineSimilarity. -/
noncomputable def sumSquares (v : List ℝ) : ℝ := v.foldl (fun s x => s + x * x) 0

/-- The `dotProduct += a[i] * b[i]` accumulation of cosineSimilarity,
written as a fold over the zipped vectors (the source loops over the common
index range after the dimension check). -/
noncomputable def dotList (a b : List ℝ) : ℝ :=
  (List.zip a b).foldl (fun s p => s + p.1 * p.2) 0

open Classical in
/-- cosineSimilarity of src/ml/embeddings.ts.  Throwing
`new Error('Embeddings must have the same dimension')` is modelled by
`Except.error`; the arithmetic is exact where the source rounds. -/
noncomputable def cosineSimilarity (a b : EmbVec) : Except String ℝ :=
  if a.length ≠ b.length then
    .error "Embeddings must have the same dimension"
  else
    let denominator := Real.sqrt (sumSquares a) * Real.sqrt (sumSquares b)
    if denominator = 0 then .ok 0
    else .ok (max 0 (min 1 (dotList a b / denominator)))

/-- The status values of EmbeddingModelSingleton.getStatus
('loading' | 'ready' | 'error'). -/
inductive ModelStatus where
  | loading
  | ready
  | error
deriving DecidableEq, Repr

/-- The private fields of EmbeddingModelSingleton: `model` (null or the
loaded pipeline, here Option Unit), `isLoading`, `loadError`. -/
structure ProviderState where
  model : Option Unit
  isLoading : Bool
  loadError : Option String
deriving DecidableEq, Repr

/-- The state of the singleton right after construction: no model, not
loading, no recorded error. -/
def initialProviderState : ProviderState := ⟨none, false, none⟩

/-- EmbeddingModelSingleton.getStatus of src/ml/embeddings.ts: check
loadError, then isLoading, then model, defaulting to 'loading'. -/
def ProviderState.getStatus (s : ProviderState) : ModelStatus :=
  if s.loadError.isSome then .error
  else if s.isLoading then .loading
  else if s.model.isSome then .ready
  else .loading

/-- interface SimilarityResult of src/ml/types.ts. -/
structure SimilarityResult where
  blockedSimilarity : ℝ
  allowedSimilarity : ℝ
  shouldBlock : Bool

/-- The neutral fail-open result `{blockedSimilarity: 0, allowedSimilarity: 0,
shouldBlock: false}` returned on every failure path of computePageSimilarity. -/
noncomputable def neutralResult : SimilarityResult := ⟨0, 0, false⟩

/-- const BLOCK_THRESHOLD = 0.30 (src/background.ts). -/
noncomputable def BLOCK_THRESHOLD : ℝ := 0.30

/-- const ALLOW_THRESHOLD = 0.55 (src/background.ts). -/
noncomputable def ALLOW_THRESHOLD : ℝ := 0.55

open Classical in
/-- The decision line of computePageSimilarity:
`shouldBlock = blockedSimilarity > BLOCK_THRESHOLD && allowedSimilarity < ALLOW_THRESHOLD`. -/
noncomputable def decideShouldBlock (blockedSimilarity allowedSimilarity : ℝ) : Bool :=
  decide (blockedSimilarity > BLOCK_THRESHOLD) && decide (allowedSimilarity < ALLOW_THRESHOLD)

/-- Ceiling of half of n, i.e. Math.ceil(n * 0.5), the early-exit window quota. -/
def jsCeilHalf (n : Nat) : Nat := (n + 1) / 2

/-- The inner keyword loop of computePageSimilarity: starting from
`maxSim = 0`, for each keyword present in the cache take the max with the
cosine similarity; a similarity error (thrown) propagates. -/
noncomputable def maxKeywordSim (cache : String → Option EmbVec) (pageEmbedding : EmbVec) :
    List String → ℝ → Except String ℝ
  | [], maxSim => .ok maxSim
  | keyword :: rest, maxSim =>
    match cache keyword with
    | none => maxKeywordSim cache pageEmbedding rest maxSim
    | some keywordEmbedding =>
      match cosineSimilarity pageEmbedding keywordEmbedding with
      | .error e => .error e
      | .ok similarity => maxKeywordSim cache pageEmbedding rest (max maxSim similarity)

open Classical in
/-- The per-window loop of computePageSimilarity (src/background.ts,
`for (const window of windows)`).  `computeEmbedding` is the Provider call
(its `Except.error` models a thrown exception), `total` is `windows.length`,
and the two accumulators are blockedSimilarities / allowedSimilarities in
push order.  The early-exit break reproduces
`maxBlockedSim > 0.85 && blockedSimilarities.length >= Math.ceil(windows.length * 0.5)`. -/
noncomputable def aggregateWindows (computeEmbedding : String → Except String EmbVec)
    (cache : String → Option EmbVec) (blockedKeywords allowedKeywords : List String)
    (total : Nat) : List SlidingWindow → List ℝ → List ℝ → Except String (List ℝ × List ℝ)
  | [], bAcc, aAcc => .ok (bAcc, aAcc)
  | w :: rest, bAcc, aAcc =>
    match computeEmbedding w.text with
    | .error e => .error e
    | .ok pageEmbedding =>
      match maxKeywordSim cache pageEmbedding blockedKeywords 0 with
      | .error e => .error e
      | .ok maxBlockedSim =>
        let bAcc' := bAcc ++ [maxBlockedSim]
        match maxKeywordSim cache pageEmbedding allowedKeywords 0 with
        | .error e => .error e
        | .ok maxAllowedSim =>
          let aAcc' := aAcc ++ [maxAllowedSim]
          if maxBlockedSim > 0.85 ∧ jsCeilHalf total ≤ bAcc'.length then
            .ok (bAcc', aAcc')
          else
            aggregateWindows computeEmbedding cache blockedKeywords allowedKeywords total rest bAcc' aAcc'

/-- The try-block of computePageSimilarity: windowing with the fixed (512,
128) configuration, the per-window loop, percentile pooling, and the
threshold decision.  An `Except.error` is an exception escaping the block. -/
noncomputable def computePageSimilarityBody (computeEmbedding : String → Except String EmbVec)
    (cache : String → Option EmbVec) (text : String)
    (blockedKeywords allowedKeywords : List String) : Except String SimilarityResult :=
  let windows := (createSlidingWindows text 512 128).getD []
  match aggregateWindows computeEmbedding cache blockedKeywords allowedKeywords
      windows.length windows [] [] with
  | .error e => .error e
  | .ok scores =>
    let blockedSimilarity := calculate75thPercentile scores.1
    let allowedSimilarity := calculate75thPercentile scores.2
    .ok ⟨blockedSimilarity, allowedSimilarity,
         decideShouldBlock blockedSimilarity allowedSimilarity⟩

/-- computePageSimilarity of src/background.ts.  `status` is the value of
`mlModelStatus` after the auto-initialisation / waiting preamble has
settled (`none` models the JS null); if it is not 'ready' the neutral
result is returned, and the catch-block turns every exception of the body
into the neutral result. -/
noncomputable def computePageSimilarity (computeEmbedding : String → Except String EmbVec)
    (status : Option ModelStatus) (cache : String → Option EmbVec) (text : String)
    (blockedKeywords allowedKeywords : List String) : SimilarityResult :=
  if status ≠ some ModelStatus.ready then neutralResult
  else
    match computePageSimilarityBody computeEmbedding cache text blockedKeywords allowedKeywords with
    | .error _ => neutralResult
    | .ok result => result

/-- The body of the keyword loop of precomputeKeywordEmbeddings: an
already-cached keyword is left alone, otherwise the embedding is computed
and inserted, and a computation failure is caught and skipped. -/
def precomputeStep (computeEmbedding : String → Except String EmbVec)
    (cache : String → Option EmbVec) (keyword : String) : String → Option EmbVec :=
  match cache keyword with
  | some _ => cache
  | none =>
    match computeEmbedding keyword with
    | .ok embedding => fun k => if k = keyword then some embedding else cache k
    | .error _ => cache

/-- precomputeKeywordEmbeddings of src/background.ts: a no-op unless
`mlModelStatus` is 'ready', otherwise the keyword loop threaded over the
cache. -/
def precomputeKeywordEmbeddings (computeEmbedding : String → Except String EmbVec)
    (status : Option ModelStatus) (cache : String → Option EmbVec)
    (keywords : List String) : String → Option EmbVec :=
  if status ≠ some ModelStatus.ready then cache
  else keywords.foldl (precomputeStep computeEmbedding) cache


/-- C10: in the provider's freshly constructed state (initialize never
called: no model, no load in flight, no recorded error) getStatus returns
'loading', and this is the same value getStatus returns for a state with a
load actually in progress, so the status interface does not distinguish the
two situations. -/
theorem getStatus_initial_loading :
    initialProviderState.getStatus = ModelStatus.loading ∧
    (⟨none, true, none⟩ : ProviderState).getStatus = ModelStatus.loading :=
  ⟨rfl, rfl⟩

/-- C2: the decision engine blocks exactly when the pooled blocked score
exceeds 0.30 and the pooled allowed score is below 0.55; the three rows of
the decision table follow. -/
theorem decideShouldBlock_spec :
    (∀ blockedSimilarity allowedSimilarity : ℝ,
      decideShouldBlock blockedSimilarity allowedSimilarity = true ↔
        (blockedSimilarity > 0.30 ∧ allowedSimilarity < 0.55)) ∧
    decideShouldBlock 0.5 0.2 = true ∧
    decideShouldBlock 0.5 0.6 = false ∧
    decideShouldBlock 0.2 0.2 = false := by
  have h : ∀ b a : ℝ, decideShouldBlock b a = true ↔ (b > 0.30 ∧ a < 0.55) := by
    intro b a
    simp [decideShouldBlock, BLOCK_THRESHOLD, ALLOW_THRESHOLD]
  refine ⟨h, (h 0.5 0.2).mpr (by norm_num), ?_, ?_⟩
  · rw [Bool.eq_false_iff]
    intro hb
    have := ((h 0.5 0.6).mp hb).2
    norm_num at this
  · rw [Bool.eq_false_iff]
    intro hb
    have := ((h 0.2 0.2).mp hb).1
    norm_num at this

/-- Witness for C2: the equivalence applied at the concrete pair
(0.4, 0.3). -/
theorem decideShouldBlock_spec_witness : decideShouldBlock 0.4 0.3 = true :=
  (decideShouldBlock_spec.1 0.4 0.3).mpr (by norm_num)

/-- C1: computePageSimilarity fails open.  If the lifecycle status after the
initialisation preamble is not 'ready' the neutral result {0, 0, false} is
returned, and if the windowing/embedding/similarity body throws any
exception the catch-block also returns the neutral result, so no exception
reaches the caller. -/
theorem computePageSimilarity_fail_open (computeEmbedding : String → Except String EmbVec)
    (status : Option ModelStatus) (cache : String → Option EmbVec) (text : String)
    (blockedKeywords allowedKeywords : List String) :
    (status ≠ some ModelStatus.ready →
      computePageSimilarity computeEmbedding status cache text blockedKeywords allowedKeywords
        = neutralResult) ∧
    (∀ e, computePageSimilarityBody computeEmbedding cache text blockedKeywords allowedKeywords
        = .error e →
      computePageSimilarity computeEmbedding status cache text blockedKeywords allowedKeywords
        = neutralResult) := by
  constructor
  · intro h
    simp [computePageSimilarity, h]
  · intro e he
    by_cases hs : status = some ModelStatus.ready
    · simp [computePageSimilarity, hs, he]
    · simp [computePageSimilarity, hs]

/-- A mock backend call that always throws. -/
def embedFail : String → Except String EmbVec := fun _ => .error "backend failure"

/-- The empty keyword cache. -/
def cacheEmpty : String → Option EmbVec := fun _ => none

/-- Witness for C1: with the status still null the pipeline returns the
neutral result, and with a ready status but a throwing backend the body
throws and the pipeline still returns the neutral result. -/
theorem computePageSimilarity_fail_open_witness :
    computePageSimilarity embedFail none cacheEmpty "hello" [] [] = neutralResult ∧
    computePageSimilarity embedFail (some ModelStatus.ready) cacheEmpty "hello" ["gaming"] ["work"]
      = neutralResult :=
  ⟨(computePageSimilarity_fail_open embedFail none cacheEmpty "hello" [] []).1 (by decide),
   (computePageSimilarity_fail_open embedFail (some ModelStatus.ready) cacheEmpty "hello"
      ["gaming"] ["work"]).2 "backend failure" rfl⟩

lemma precomputeStep_preserves (computeEmbedding : String → Except String EmbVec)
    (cache : String → Option EmbVec) (k kw : String) (v : EmbVec)
    (h : cache kw = some v) :
    precomputeStep computeEmbedding cache k kw = some v := by
  unfold precomputeStep
  cases hk : cache k with
  | some w => simpa using h
  | none =>
    cases he : computeEmbedding k with
    | ok emb =>
      simp only
      by_cases hkw : kw = k
      · subst hkw
        rw [h] at hk
        cases hk
      · simp [hkw, h]
    | error msg => simpa using h

lemma precomputeStep_other (computeEmbedding : String → Except String EmbVec)
    (cache : String → Option EmbVec) (k kw : String) (hkw : kw ≠ k) :
    precomputeStep computeEmbedding cache k kw = cache kw := by
  unfold precomputeStep
  cases hk : cache k with
  | some w => rfl
  | none =>
    cases he : computeEmbedding k with
    | ok emb => simp [hkw]
    | error msg => rfl

lemma precompute_foldl_preserves (computeEmbedding : String → Except String EmbVec) :
    ∀ (keywords : List String) (cache : String → Option EmbVec) (kw : String) (v : EmbVec),
      cache kw = some v →
      (keywords.foldl (precomputeStep computeEmbedding) cache) kw = some v := by
  intro keywords
  induction keywords with
  | nil => intro cache kw v h; simpa using h
  | cons k rest ih =>
    intro cache kw v h
    rw [List.foldl_cons]
    exact ih _ kw v (precomputeStep_preserves computeEmbedding cache k kw v h)

lemma precompute_foldl_notmem (computeEmbedding : String → Except String EmbVec) :
    ∀ (keywords : List String) (cache : String → Option EmbVec) (kw : String),
      kw ∉ keywords →
      (keywords.foldl (precomputeStep computeEmbedding) cache) kw = cache kw := by
  intro keywords
  induction keywords with
  | nil => intro cache kw _; rfl
  | cons k rest ih =>
    intro cache kw hkw
    rw [List.foldl_cons]
    have h1 : kw ≠ k := fun h => hkw (h ▸ List.mem_cons_self k rest)
    have h2 : kw ∉ rest := fun h => hkw (List.mem_cons_of_mem k h)
    rw [ih _ kw h2, precomputeStep_other computeEmbedding cache k kw h1]

lemma precompute_foldl_mem (computeEmbedding : String → Except String EmbVec) :
    ∀ (keywords : List String) (cache : String → Option EmbVec) (kw : String),
      kw ∈ keywords → cache kw = none →
      (keywords.foldl (precomputeStep computeEmbedding) cache) kw
        = (computeEmbedding kw).toOption := by
  intro keywords
  induction keywords with
  | nil => intro cache kw hmem; cases hmem
  | cons k rest ih =>
    intro cache kw hmem hnone
    rw [List.foldl_cons]
    by_cases hkw : kw = k
    · subst hkw
      cases he : computeEmbedding kw with
      | ok emb =>
        have hstep : precomputeStep computeEmbedding cache kw kw = some emb := by
          unfold precomputeStep
          rw [hnone, he]
          simp
        rw [precompute_foldl_preserves computeEmbedding rest _ kw emb hstep]
        rfl
      | error msg =>
        have hstep : precomputeStep computeEmbedding cache kw = cache := by
          unfold precomputeStep
          rw [hnone, he]
        rw [hstep]
        by_cases hrest : kw ∈ rest
        · rw [ih cache kw hrest hnone, he]
        · rw [precompute_foldl_notmem computeEmbedding rest cache kw hrest, hnone]
          rfl
    · have hmem' : kw ∈ rest := by
        rcases List.mem_cons.mp hmem with h | h
        · exact absurd h hkw
        · exact h
      have hnone' : precomputeStep computeEmbedding cache k kw = none := by
        rw [precomputeStep_other computeEmbedding cache k kw hkw, hnone]
      exact ih _ kw hmem' hnone'

/-- C9: precomputeKeywordEmbeddings is write-once per key and idempotent —
a keyword already present in the cache keeps its vector (also across a
second call with an overlapping keyword set); when the status is not
'ready' the call leaves the cache untouched; a keyword whose embedding
computation fails is skipped (its entry stays absent) without aborting the
batch — every other uncached keyword of the list still receives exactly the
vector its embedding call returns — and keys outside the list never
change. -/
theorem precomputeKeywordEmbeddings_spec (computeEmbedding : String → Except String EmbVec)
    (status : Option ModelStatus) (cache : String → Option EmbVec)
    (keywords : List String) :
    (status ≠ some ModelStatus.ready →
      precomputeKeywordEmbeddings computeEmbedding status cache keywords = cache) ∧
    (∀ kw v, cache kw = some v →
      precomputeKeywordEmbeddings computeEmbedding status cache keywords kw = some v) ∧
    (∀ keywords2 kw v, cache kw = some v →
      precomputeKeywordEmbeddings computeEmbedding status
        (precomputeKeywordEmbeddings computeEmbedding status cache keywords) keywords2 kw
        = some v) ∧
    (∀ kw, kw ∈ keywords → cache kw = none →
      precomputeKeywordEmbeddings computeEmbedding (some ModelStatus.ready) cache keywords kw
        = (computeEmbedding kw).toOption) ∧
    (∀ kw, kw ∉ keywords →
      precomputeKeywordEmbeddings computeEmbedding status cache keywords kw = cache kw) := by
  have hpres : ∀ (ks : List String) (c : String → Option EmbVec) (kw : String) (v : EmbVec),
      c kw = some v → precomputeKeywordEmbeddings computeEmbedding status c ks kw = some v := by
    intro ks c kw v h
    unfold precomputeKeywordEmbeddings
    by_cases hs : status = some ModelStatus.ready
    · simp only [hs]
      simpa using precompute_foldl_preserves computeEmbedding ks c kw v h
    · simp [hs, h]
  refine ⟨?_, hpres keywords cache, ?_, ?_, ?_⟩
  · intro h
    simp [precomputeKeywordEmbeddings, h]
  · intro keywords2 kw v h
    exact hpres keywords2 _ kw v (hpres keywords cache kw v h)
  · intro kw hmem hnone
    unfold precomputeKeywordEmbeddings
    simpa using precompute_foldl_mem computeEmbedding keywords cache kw hmem hnone
  · intro kw hkw
    unfold precomputeKeywordEmbeddings
    by_cases hs : status = some ModelStatus.ready
    · simp only [hs]
      simpa using precompute_foldl_notmem computeEmbedding keywords cache kw hkw
    · simp [hs]

/-- A mock backend for the C9 witness: fails on "beta", returns the
one-dimensional vector [7] for every other keyword. -/
noncomputable def embedSomeFail : String → Except String EmbVec :=
  fun kw => if kw = "beta" then .error "embedding failure" else .ok [(7 : ℝ)]

/-- A cache for the C9 witness holding only the keyword "alpha". -/
noncomputable def cacheAlpha : String → Option EmbVec :=
  fun kw => if kw = "alpha" then some [(5 : ℝ)] else none

/-- Witness for C9: on the batch ["alpha", "beta", "gamma"] with "alpha"
already cached as [5], a not-ready call is a no-op; a ready call keeps
"alpha" at [5] (even though the backend would now return [7]), leaves the
failing "beta" uncached, stores [7] for "gamma", and does not touch
"delta". -/
theorem precomputeKeywordEmbeddings_spec_witness :
    precomputeKeywordEmbeddings embedSomeFail (some ModelStatus.loading) cacheAlpha
      ["alpha", "beta", "gamma"] = cacheAlpha ∧
    precomputeKeywordEmbeddings embedSomeFail (some ModelStatus.ready) cacheAlpha
      ["alpha", "beta", "gamma"] "alpha" = some [(5 : ℝ)] ∧
    precomputeKeywordEmbeddings embedSomeFail (some ModelStatus.ready) cacheAlpha
      ["alpha", "beta", "gamma"] "beta" = none ∧
    precomputeKeywordEmbeddings embedSomeFail (some ModelStatus.ready) cacheAlpha
      ["alpha", "beta", "gamma"] "gamma" = some [(7 : ℝ)] ∧
    precomputeKeywordEmbeddings embedSomeFail (some ModelStatus.ready) cacheAlpha
      ["alpha", "beta", "gamma"] "delta" = none :=
  ⟨(precomputeKeywordEmbeddings_spec embedSomeFail (some ModelStatus.loading) cacheAlpha
      ["alpha", "beta", "gamma"]).1 (by decide),
   (precomputeKeywordEmbeddings_spec embedSomeFail (some ModelStatus.ready) cacheAlpha
      ["alpha", "beta", "gamma"]).2.1 "alpha" [(5 : ℝ)] rfl,
   ((precomputeKeywordEmbeddings_spec embedSomeFail (some ModelStatus.ready) cacheAlpha
      ["alpha", "beta", "gamma"]).2.2.2.1 "beta" (by decide) rfl).trans rfl,
   ((precomputeKeywordEmbeddings_spec embedSomeFail (some ModelStatus.ready) cacheAlpha
      ["alpha", "beta", "gamma"]).2.2.2.1 "gamma" (by decide) rfl).trans rfl,
   ((precomputeKeywordEmbeddings_spec embedSomeFail (some ModelStatus.ready) cacheAlpha
      ["alpha", "beta", "gamma"]).2.2.2.2 "delta" (by decide)).trans rfl⟩

instance : Inhabited SlidingWindow := ⟨⟨"", 0, 0⟩⟩

lemma jsSlice_length {α : Type} (l : List α) (i : Int) (ws : Nat)
    (h0 : 0 ≤ i) (hi : i < (l.length : Int)) :
    (jsSlice l i (i + (ws : Int))).length = min ws (l.length - i.toNat) := by
  unfold jsSlice jsSliceIdx
  have h1 : ¬ (i < 0) := by omega
  have h2 : ¬ (i + (ws : Int) < 0) := by omega
  rw [if_neg h1, if_neg h2]
  simp only [List.length_take, List.length_drop]
  omega

lemma slidingLoop_start_lt_end (tokens : List String) (ws ov : Nat) (hws : 0 < ws) :
    ∀ (fuel : Nat) (i : Int) (L : List SlidingWindow),
      slidingLoop tokens ws ov fuel i = some L → ∀ w ∈ L, w.startIndex < w.endIndex := by
  intro fuel
  induction fuel with
  | zero =>
    intro i L h
    simp [slidingLoop] at h
  | succ n ih =>
    intro i L h
    simp only [slidingLoop] at h
    split at h
    case isTrue hi =>
      split at h
      case isTrue hsmall =>
        injection h with h'
        subst h'
        intro w hw
        cases hw
      case isFalse hsmall =>
        split at h
        case isTrue hend =>
          injection h with h'
          subst h'
          intro w hw
          simp only [List.mem_singleton] at hw
          subst hw
          simp only
          omega
        case isFalse hend =>
          cases hrec : slidingLoop tokens ws ov n (i + ((ws : Int) - (ov : Int))) with
          | none => rw [hrec] at h; cases h
          | some L' =>
            rw [hrec] at h
            injection h with h'
            subst h'
            intro w hw
            rcases List.mem_cons.mp hw with rfl | hw'
            · simp only
              omega
            · exact ih _ L' hrec w hw'
    case isFalse hi =>
      injection h with h'
      subst h'
      intro w hw
      cases hw

/-- C8 (amended): every window produced by createSlidingWindows from a text
with at least one token (and a positive windowSize) satisfies the
data-model invariant startIndex < endIndex; in particular the single
whole-text window of a short text does. -/
theorem createSlidingWindows_start_lt_end (text : String) (ws ov : Nat)
    (hws : 0 < ws) (htok : tokenize text ≠ []) (L : List SlidingWindow)
    (hL : createSlidingWindows text ws ov = some L) :
    ∀ w ∈ L, w.startIndex < w.endIndex := by
  simp only [createSlidingWindows] at hL
  split at hL
  case isTrue hshort =>
    injection hL with h'
    subst h'
    intro w hw
    simp only [List.mem_singleton] at hw
    subst hw
    simp only
    have hne : (tokenize text).length ≠ 0 := fun h => htok (List.length_eq_zero.mp h)
    omega
  case isFalse hlong =>
    exact slidingLoop_start_lt_end _ ws ov hws _ 0 L hL

/-- Counterexample to C8 as stated: for a text with no tokens the single
returned window is (startIndex 0, endIndex 0), which violates
startIndex < endIndex. -/
theorem createSlidingWindows_empty_window_cex :
    createSlidingWindows "" 512 128 = some [⟨"", 0, 0⟩] ∧
    ¬ ((⟨"", 0, 0⟩ : SlidingWindow).startIndex < (⟨"", 0, 0⟩ : SlidingWindow).endIndex) :=
  ⟨by decide, by decide⟩

/-- Witness for C8: the two windows of createSlidingWindows("a b c", 2, 1)
both satisfy startIndex < endIndex. -/
theorem createSlidingWindows_start_lt_end_witness :
    (⟨"a b", 0, 2⟩ : SlidingWindow).startIndex < (⟨"a b", 0, 2⟩ : SlidingWindow).endIndex ∧
    (⟨"b c", 1, 3⟩ : SlidingWindow).startIndex < (⟨"b c", 1, 3⟩ : SlidingWindow).endIndex := by
  have h := createSlidingWindows_start_lt_end "a b c" 2 1 (by decide) (by decide)
    [⟨"a b", 0, 2⟩, ⟨"b c", 1, 3⟩] (by decide)
  exact ⟨h _ (by decide), h _ (by decide)⟩

lemma slidingLoop_stride_zero_diverges (tokens : List String) (ws : Nat)
    (hlen : ws < tokens.length) :
    ∀ fuel, slidingLoop tokens ws ws fuel 0 = none := by
  intro fuel
  induction fuel with
  | zero => rfl
  | succ n ih =>
    have hi : (0 : Int) < (tokens.length : Int) := by omega
    have hslice : (jsSlice tokens 0 (0 + (ws : Int))).length = ws := by
      rw [jsSlice_length tokens 0 ws (by omega) hi]
      omega
    simp only [slidingLoop]
    rw [if_pos hi, hslice, if_neg (by omega : ¬ (4 * ws < ws)),
      if_neg (by omega : ¬ ((tokens.length : Int) ≤ 0 + (ws : Int)))]
    have h0 : (0 : Int) + ((ws : Int) - (ws : Int)) = 0 := by ring
    rw [h0, ih]

/-- C5: with overlap = windowSize (non-positive stride) createSlidingWindows
does not fail fast with an invalid-window-configuration error — the loop
never terminates.  On the ten-character text "a b c" with windowSize 2 and
overlap 2 the loop returns no result for any amount of fuel, and the
wrapper's fuel bound is exhausted (`none`); no error value of any kind is
produced. -/
theorem createSlidingWindows_stride_zero_loops :
    (∀ fuel, slidingLoop (tokenize "a b c") 2 2 fuel 0 = none) ∧
    createSlidingWindows "a b c" 2 2 = none :=
  ⟨slidingLoop_stride_zero_diverges (tokenize "a b c") 2 (by decide), by decide⟩

lemma slidingLoop_spec (tokens : List String) (ws ov : Nat)
    (hov : ov < ws) (hquarter : ws ≤ 4 * ov) :
    ∀ (fuel : Nat) (i : Int),
      0 ≤ i → i < (tokens.length : Int) →
      (ws : Int) ≤ 4 * ((tokens.length : Int) - i) →
      (tokens.length : Int) - i < (fuel : Int) →
      ∃ w L, slidingLoop tokens ws ov fuel i = some (w :: L) ∧
        w.startIndex = i ∧
        w.endIndex ≤ i + (ws : Int) ∧
        (List.getLast (w :: L) (List.cons_ne_nil w L)).endIndex = (tokens.length : Int) ∧
        List.Chain' (fun a b => b.startIndex = a.startIndex + ((ws : Int) - (ov : Int)) ∧
          a.endIndex - b.startIndex = (ov : Int)) (w :: L) := by
  intro fuel
  induction fuel with
  | zero =>
    intro i _ hi _ hfuel
    omega
  | succ n ih =>
    intro i h0 hi hquota hfuel
    have hslice : (jsSlice tokens i (i + (ws : Int))).length
        = min ws (tokens.length - i.toNat) := jsSlice_length tokens i ws h0 hi
    have hnotsmall : ¬ (4 * (jsSlice tokens i (i + (ws : Int))).length < ws) := by
      rw [hslice]
      omega
    simp only [slidingLoop]
    rw [if_pos hi, if_neg hnotsmall]
    by_cases hend : (tokens.length : Int) ≤ i + (ws : Int)
    · rw [if_pos hend]
      refine ⟨_, [], rfl, rfl, ?_, ?_, List.chain'_singleton _⟩
      · simp only
        rw [hslice]
        omega
      · simp only [List.getLast_singleton]
        rw [hslice]
        omega
    · rw [if_neg hend]
      have hlenfull : (jsSlice tokens i (i + (ws : Int))).length = ws := by
        rw [hslice]
        omega
      obtain ⟨w', L', hrec, hstart', hendb', hlast', hchain'⟩ :=
        ih (i + ((ws : Int) - (ov : Int))) (by omega) (by omega) (by omega) (by omega)
      rw [hrec]
      refine ⟨_, w' :: L', rfl, rfl, ?_, ?_, ?_⟩
      · simp only
        rw [hlenfull]
      · rw [List.getLast_cons (List.cons_ne_nil w' L')]
        exact hlast'
      · refine List.chain'_cons.mpr ⟨⟨?_, ?_⟩, hchain'⟩
        · rw [hstart']
        · simp only
          rw [hstart', hlenfull]
          ring

/-- C4 (amended): for a text with more than windowSize tokens and
0 < overlap < windowSize, provided additionally windowSize ≤ 4·overlap (so
that the 25%-rule can never discard a trailing slice — the default
configuration 512/128 satisfies this at the boundary), createSlidingWindows
returns more than one window, every two consecutive windows overlap by
exactly `overlap` tokens, and the last window's endIndex equals the total
token count. -/
theorem createSlidingWindows_overlap_spec (text : String) (ws ov : Nat)
    (_hov0 : 0 < ov) (hov : ov < ws) (hquarter : ws ≤ 4 * ov)
    (hlen : ws < (tokenize text).length) :
    ∃ w L, createSlidingWindows text ws ov = some (w :: L) ∧ L ≠ [] ∧
      List.Chain' (fun a b => a.endIndex - b.startIndex = (ov : Int)) (w :: L) ∧
      (List.getLast (w :: L) (List.cons_ne_nil w L)).endIndex
        = ((tokenize text).length : Int) := by
  obtain ⟨w, L, hloop, hstart, hendb, hlast, hchain⟩ :=
    slidingLoop_spec (tokenize text) ws ov hov hquarter ((tokenize text).length + 2) 0
      (by omega) (by omega) (by omega) (by omega)
  refine ⟨w, L, ?_, ?_, ?_, hlast⟩
  · simp only [createSlidingWindows]
    rw [if_neg (by omega : ¬ ((tokenize text).length ≤ ws))]
    exact hloop
  · intro hLnil
    subst hLnil
    rw [List.getLast_singleton] at hlast
    omega
  · exact List.Chain'.imp (fun a b hab => hab.2) hchain

/-- Counterexample to C4 as stated: with windowSize 9, overlap 1
(0 < 1 < 9) and 10 tokens (> 9), the 25% rule discards the trailing
2-token slice, so only one window is returned and its endIndex is 9, not
the token count 10. -/
theorem createSlidingWindows_trailing_discard_cex :
    (0 : Nat) < 1 ∧ (1 : Nat) < 9 ∧ (tokenize "a b c d e f g h i j").length = 10 ∧
    createSlidingWindows "a b c d e f g h i j" 9 1
      = some [⟨"a b c d e f g h i", 0, 9⟩] ∧
    ([(⟨"a b c d e f g h i", 0, 9⟩ : SlidingWindow)]).length = 1 ∧
    (⟨"a b c d e f g h i", 0, 9⟩ : SlidingWindow).endIndex ≠ (10 : Int) := by
  decide

/-- Witness for C4: the text "a b c d e f" (6 tokens) with windowSize 4 and
overlap 2 yields two overlapping windows ending at token 6. -/
theorem createSlidingWindows_overlap_spec_witness :
    ∃ w L, createSlidingWindows "a b c d e f" 4 2 = some (w :: L) ∧ L ≠ [] ∧
      List.Chain' (fun a b => a.endIndex - b.startIndex = ((2 : Nat) : Int)) (w :: L) ∧
      (List.getLast (w :: L) (List.cons_ne_nil w L)).endIndex
        = ((tokenize "a b c d e f").length : Int) :=
  createSlidingWindows_overlap_spec "a b c d e f" 4 2 (by decide) (by decide) (by decide)
    (by decide)

/-- C3: descending-percentile pooling returns 0 on the empty list, the sole
element of a singleton, and otherwise the element at index
floor(length × 0.25) of the descending-sorted list; pooling
[0.1,...,0.8] returns 0.6. -/
theorem calculate75thPercentile_spec :
    calculate75thPercentile ([] : List ℝ) = 0 ∧
    (∀ x : ℝ, calculate75thPercentile [x] = x) ∧
    (∀ (values sorted : List ℝ), 2 ≤ values.length → sorted.Perm values →
      sorted.Sorted (fun a b => b ≤ a) →
      calculate75thPercentile values = sorted.getD (values.length / 4) 0) ∧
    calculate75thPercentile [0.1, 0.2, 0.3, 0.4, 0.5, 0.6, 0.7, 0.8] = (0.6 : ℝ) := by
  have hgen : ∀ (values sorted : List ℝ), 2 ≤ values.length → sorted.Perm values →
      sorted.Sorted (fun a b => b ≤ a) →
      calculate75thPercentile values = sorted.getD (values.length / 4) 0 := by
    intro values sorted h2 hperm hsorted
    haveI hTot : IsTotal ℝ (fun a b : ℝ => b ≤ a) := ⟨fun a b => le_total b a⟩
    haveI hTrans : IsTrans ℝ (fun a b : ℝ => b ≤ a) := ⟨fun a b c hab hbc => le_trans hbc hab⟩
    haveI hAnti : IsAntisymm ℝ (fun a b : ℝ => b ≤ a) := ⟨fun a b hab hba => le_antisymm hba hab⟩
    have hperm' : (values.insertionSort (fun a b => b ≤ a)).Perm sorted :=
      (List.perm_insertionSort _ values).trans hperm.symm
    have heq : values.insertionSort (fun a b => b ≤ a) = sorted :=
      List.eq_of_perm_of_sorted hperm' (List.sorted_insertionSort _ values) hsorted
    simp only [calculate75thPercentile]
    rw [if_neg (by omega : ¬ values.length = 0), if_neg (by omega : ¬ values.length = 1),
      heq, hperm.length_eq]
  refine ⟨by simp [calculate75thPercentile], ?_, hgen, ?_⟩
  · intro x
    simp [calculate75thPercentile]
  · have hperm := List.reverse_perm ([0.1, 0.2, 0.3, 0.4, 0.5, 0.6, 0.7, 0.8] : List ℝ)
    have hrev : ([0.1, 0.2, 0.3, 0.4, 0.5, 0.6, 0.7, 0.8] : List ℝ).reverse
        = [0.8, 0.7, 0.6, 0.5, 0.4, 0.3, 0.2, 0.1] := rfl
    rw [hrev] at hperm
    have hsorted : List.Sorted (fun a b : ℝ => b ≤ a)
        [0.8, 0.7, 0.6, 0.5, 0.4, 0.3, 0.2, 0.1] := by
      norm_num [List.sorted_cons]
    exact (hgen [0.1, 0.2, 0.3, 0.4, 0.5, 0.6, 0.7, 0.8]
      [0.8, 0.7, 0.6, 0.5, 0.4, 0.3, 0.2, 0.1] (by norm_num) hperm hsorted).trans rfl

/-- Witness for C3: the generic clause applied to the concrete list
[1, 2, 3, 4], whose descending sort is [4, 3, 2, 1] and whose pooled value
is the element at index 1. -/
theorem calculate75thPercentile_spec_witness :
    calculate75thPercentile [(1 : ℝ), 2, 3, 4] = 3 := by
  have hperm := List.reverse_perm ([(1 : ℝ), 2, 3, 4])
  have hrev : ([(1 : ℝ), 2, 3, 4]).reverse = [4, 3, 2, 1] := rfl
  rw [hrev] at hperm
  have hsorted : List.Sorted (fun a b : ℝ => b ≤ a) [4, 3, 2, 1] := by
    norm_num [List.sorted_cons]
  exact (calculate75thPercentile_spec.2.2.1 [(1 : ℝ), 2, 3, 4] [4, 3, 2, 1] (by norm_num)
    hperm hsorted).trans rfl

/-- C7: cosineSimilarity fails with the dimension-mismatch error exactly
when the vector lengths differ; otherwise it returns a value in [0, 1],
returning 0 (not an error) when either vector has zero norm, and clamping
the raw cosine dot(a,b)/(‖a‖·‖b‖): a negative raw value yields 0 and a raw
value above 1 yields 1. -/
theorem cosineSimilarity_spec (a b : EmbVec) :
    (a.length ≠ b.length →
      cosineSimilarity a b = .error "Embeddings must have the same dimension") ∧
    (a.length = b.length →
      (Real.sqrt (sumSquares a) = 0 ∨ Real.sqrt (sumSquares b) = 0 →
        cosineSimilarity a b = .ok 0) ∧
      (Real.sqrt (sumSquares a) * Real.sqrt (sumSquares b) ≠ 0 →
        cosineSimilarity a b = .ok (max 0 (min 1
          (dotList a b / (Real.sqrt (sumSquares a) * Real.sqrt (sumSquares b))))) ∧
        (dotList a b / (Real.sqrt (sumSquares a) * Real.sqrt (sumSquares b)) < 0 →
          cosineSimilarity a b = .ok 0) ∧
        (1 < dotList a b / (Real.sqrt (sumSquares a) * Real.sqrt (sumSquares b)) →
          cosineSimilarity a b = .ok 1)) ∧
      (∃ r, cosineSimilarity a b = .ok r ∧ 0 ≤ r ∧ r ≤ 1)) := by
  constructor
  · intro h
    simp only [cosineSimilarity]
    rw [if_pos h]
  · intro hlen
    have hnn : ¬ (a.length ≠ b.length) := fun h => h hlen
    have key : ((Real.sqrt (sumSquares a) * Real.sqrt (sumSquares b)) = 0 →
          cosineSimilarity a b = .ok 0) ∧
        ((Real.sqrt (sumSquares a) * Real.sqrt (sumSquares b)) ≠ 0 →
          cosineSimilarity a b = .ok (max 0 (min 1
            (dotList a b / (Real.sqrt (sumSquares a) * Real.sqrt (sumSquares b)))))) := by
      constructor
      · intro h
        simp only [cosineSimilarity]
        rw [if_neg hnn, if_pos h]
      · intro h
        simp only [cosineSimilarity]
        rw [if_neg hnn, if_neg h]
    refine ⟨?_, ?_, ?_⟩
    · intro hz
      refine key.1 ?_
      rcases hz with h | h
      · rw [h, zero_mul]
      · rw [h, mul_zero]
    · intro hne
      refine ⟨key.2 hne, ?_, ?_⟩
      · intro hraw
        rw [key.2 hne, min_eq_right (le_trans hraw.le zero_le_one), max_eq_left hraw.le]
      · intro hraw
        rw [key.2 hne, min_eq_left hraw.le, max_eq_right zero_le_one]
    · by_cases hd : (Real.sqrt (sumSquares a) * Real.sqrt (sumSquares b)) = 0
      · exact ⟨0, key.1 hd, le_refl 0, zero_le_one⟩
      · exact ⟨_, key.2 hd, le_max_left 0 _, max_le zero_le_one (min_le_left 1 _)⟩

/-- Witness for C7: a length-mismatch error on ([1], [1, 2]), the defined
zero result on ([0], [0]), and a value in [0, 1] on ([1], [1]). -/
theorem cosineSimilarity_spec_witness :
    cosineSimilarity [(1 : ℝ)] [(1 : ℝ), 2] = .error "Embeddings must have the same dimension" ∧
    cosineSimilarity [(0 : ℝ)] [(0 : ℝ)] = .ok 0 ∧
    (∃ r, cosineSimilarity [(1 : ℝ)] [(1 : ℝ)] = .ok r ∧ 0 ≤ r ∧ r ≤ 1) := by
  refine ⟨(cosineSimilarity_spec [(1 : ℝ)] [(1 : ℝ), 2]).1 (by decide), ?_, ?_⟩
  · refine ((cosineSimilarity_spec [(0 : ℝ)] [(0 : ℝ)]).2 rfl).1 ?_
    left
    have h : sumSquares [(0 : ℝ)] = 0 := by
      norm_num [sumSquares]
    rw [h, Real.sqrt_zero]
  · exact ((cosineSimilarity_spec [(1 : ℝ)] [(1 : ℝ)]).2 rfl).2.2

/-- The pair (blocked-score, allowed-score) the aggregator computes for one
window: none when the embedding call or a similarity computation fails. -/
noncomputable def windowScorePair (computeEmbedding : String → Except String EmbVec)
    (cache : String → Option EmbVec) (blockedKeywords allowedKeywords : List String)
    (w : SlidingWindow) : Option (ℝ × ℝ) :=
  match computeEmbedding w.text with
  | .error _ => none
  | .ok pageEmbedding =>
    match maxKeywordSim cache pageEmbedding blockedKeywords 0,
          maxKeywordSim cache pageEmbedding allowedKeywords 0 with
    | .ok b, .ok a => some (b, a)
    | .ok _, .error _ => none
    | .error _, _ => none

lemma windowScorePair_congr (computeEmbedding computeEmbedding' : String → Except String EmbVec)
    (cache : String → Option EmbVec) (blockedKeywords allowedKeywords : List String)
    (w : SlidingWindow) (h : computeEmbedding' w.text = computeEmbedding w.text) :
    windowScorePair computeEmbedding' cache blockedKeywords allowedKeywords w
      = windowScorePair computeEmbedding cache blockedKeywords allowedKeywords w := by
  simp only [windowScorePair, h]

lemma aggregateWindows_exit_aux (computeEmbedding : String → Except String EmbVec)
    (cache : String → Option EmbVec) (blockedKeywords allowedKeywords : List String)
    (total : Nat) :
    ∀ (scores : List (ℝ × ℝ)) (ws : List SlidingWindow) (bAcc aAcc : List ℝ),
      scores ≠ [] →
      (ws.take scores.length).map
          (windowScorePair computeEmbedding cache blockedKeywords allowedKeywords)
        = scores.map some →
      (∀ j p, scores.get? j = some p → j + 1 < scores.length →
        ¬ (p.1 > 0.85 ∧ jsCeilHalf total ≤ bAcc.length + j + 1)) →
      (∀ p, scores.getLast? = some p →
        p.1 > 0.85 ∧ jsCeilHalf total ≤ bAcc.length + scores.length) →
      aggregateWindows computeEmbedding cache blockedKeywords allowedKeywords total ws bAcc aAcc
        = .ok (bAcc ++ scores.map Prod.fst, aAcc ++ scores.map Prod.snd) := by
  intro scores
  induction scores with
  | nil => intro ws bAcc aAcc hne; exact absurd rfl hne
  | cons p rest ih =>
    intro ws bAcc aAcc _ hscores hfirst htrig
    cases ws with
    | nil => simp at hscores
    | cons w ws' =>
      rw [List.length_cons, List.take_succ_cons, List.map_cons, List.map_cons] at hscores
      injection hscores with hw hrest
      simp only [windowScorePair] at hw
      cases hE : computeEmbedding w.text with
      | error e => simp only [hE] at hw; cases hw
      | ok emb =>
        simp only [hE] at hw
        cases hB : maxKeywordSim cache emb blockedKeywords 0 with
        | error e => simp only [hB] at hw; cases hw
        | ok bsc =>
          simp only [hB] at hw
          cases hA : maxKeywordSim cache emb allowedKeywords 0 with
          | error e => simp only [hA] at hw; cases hw
          | ok asc =>
            simp only [hA] at hw
            injection hw with hw'
            have hp : p = (bsc, asc) := hw'.symm
            subst hp
            simp only [aggregateWindows, hE, hB, hA]
            have hlen1 : (bAcc ++ [bsc]).length = bAcc.length + 1 := by simp
            cases rest with
            | nil =>
              have hcond := htrig (bsc, asc) (by simp)
              rw [if_pos (show bsc > 0.85 ∧ jsCeilHalf total ≤ (bAcc ++ [bsc]).length from
                ⟨hcond.1, by rw [hlen1]; simpa using hcond.2⟩)]
              simp
            | cons q rest' =>
              have hcond := hfirst 0 (bsc, asc) rfl (by simp)
              rw [if_neg (show ¬ (bsc > 0.85 ∧ jsCeilHalf total ≤ (bAcc ++ [bsc]).length) from
                fun hc => hcond ⟨hc.1, by rw [hlen1] at hc; simpa using hc.2⟩)]
              have hrec := ih ws' (bAcc ++ [bsc]) (aAcc ++ [asc]) (by simp) hrest
                (by
                  intro j p' hg hlt
                  refine fun hc => hfirst (j + 1) p' (by simpa using hg) ?_ ⟨hc.1, ?_⟩
                  · simp only [List.length_cons] at hlt ⊢
                    omega
                  · have h2 := hc.2
                    simp only [List.length_append, List.length_cons, List.length_nil] at h2 ⊢
                    omega)
                (by
                  intro p' hg
                  have h3 := htrig p' (by simpa using hg)
                  refine ⟨h3.1, ?_⟩
                  have h2 := h3.2
                  simp only [List.length_append, List.length_cons, List.length_nil] at h2 ⊢
                  omega)
              rw [hrec]
              simp

/-- C6 (amended): in the aggregator's per-window loop, if the window at
1-based position k = scores.length is the FIRST window that satisfies the
early-exit condition (its blocked-score exceeds 0.85 and
k ≥ ceil(totalWindows × 0.5)), and every earlier window was processed
without error, then the loop stops there: the score lists passed to pooling
are exactly the per-window scores of the first k windows, and no window
after position k is processed — the result is unchanged under any backend
that agrees with the original one on the first k windows only. -/
theorem aggregateWindows_early_exit (computeEmbedding : String → Except String EmbVec)
    (cache : String → Option EmbVec) (blockedKeywords allowedKeywords : List String)
    (ws : List SlidingWindow) (scores : List (ℝ × ℝ))
    (hne : scores ≠ [])
    (hscores : (ws.take scores.length).map
        (windowScorePair computeEmbedding cache blockedKeywords allowedKeywords)
      = scores.map some)
    (hfirst : ∀ j p, scores.get? j = some p → j + 1 < scores.length →
      ¬ (p.1 > 0.85 ∧ jsCeilHalf ws.length ≤ j + 1))
    (htrig : ∀ p, scores.getLast? = some p →
      p.1 > 0.85 ∧ jsCeilHalf ws.length ≤ scores.length) :
    ∀ computeEmbedding' : String → Except String EmbVec,
      (∀ w ∈ ws.take scores.length, computeEmbedding' w.text = computeEmbedding w.text) →
      aggregateWindows computeEmbedding' cache blockedKeywords allowedKeywords ws.length ws [] []
        = .ok (scores.map Prod.fst, scores.map Prod.snd) := by
  intro computeEmbedding' hagree
  have hscores' : (ws.take scores.length).map
      (windowScorePair computeEmbedding' cache blockedKeywords allowedKeywords)
    = scores.map some := by
    rw [← hscores]
    exact List.map_congr_left (fun w hw =>
      windowScorePair_congr computeEmbedding computeEmbedding' cache blockedKeywords
        allowedKeywords w (hagree w hw))
  have h := aggregateWindows_exit_aux computeEmbedding' cache blockedKeywords allowedKeywords
    ws.length scores ws [] [] hne hscores'
    (by
      intro j p hg hlt
      simpa using hfirst j p hg hlt)
    (by
      intro p hg
      simpa using htrig p hg)
  simpa using h

/-- A mock backend returning the unit vector [1] for every text. -/
noncomputable def embedOne : String → Except String EmbVec := fun _ => .ok [(1 : ℝ)]

/-- A keyword cache holding only the keyword "kw", with embedding [1]. -/
noncomputable def cacheKw : String → Option EmbVec :=
  fun kw => if kw = "kw" then some [(1 : ℝ)] else none

lemma cosineSimilarity_one_one : cosineSimilarity [(1 : ℝ)] [(1 : ℝ)] = .ok 1 := by
  have hss : sumSquares [(1 : ℝ)] = 1 := by norm_num [sumSquares]
  have hdl : dotList [(1 : ℝ)] [(1 : ℝ)] = 1 := by norm_num [dotList]
  simp only [cosineSimilarity]
  rw [if_neg (by decide : ¬ (([(1 : ℝ)] : List ℝ).length ≠ ([(1 : ℝ)] : List ℝ).length))]
  rw [hss, hdl, Real.sqrt_one]
  rw [if_neg (by norm_num : ¬ ((1 : ℝ) * 1 = 0))]
  norm_num

lemma maxKeywordSim_kw : maxKeywordSim cacheKw [(1 : ℝ)] ["kw"] 0 = .ok 1 := by
  have hc : cacheKw "kw" = some [(1 : ℝ)] := rfl
  simp only [maxKeywordSim, hc, cosineSimilarity_one_one]
  norm_num

lemma maxKeywordSim_nil (cache : String → Option EmbVec) (e : EmbVec) (acc : ℝ) :
    maxKeywordSim cache e [] acc = .ok acc := rfl

lemma windowScorePair_one (w : SlidingWindow) :
    windowScorePair embedOne cacheKw ["kw"] [] w = some (1, 0) := by
  simp only [windowScorePair, embedOne, maxKeywordSim_kw, maxKeywordSim_nil]

/-- Counterexample to C6 as stated: with two windows both scoring 1 on the
blocked keyword, the window at position k = 2 satisfies the claim's
hypothesis (blocked-score 1 > 0.85 and 2 ≥ ceil(2 × 0.5) = 1), yet the
score lists passed to pooling contain only one entry, not the first k = 2
entries, because the loop already stopped at the earlier qualifying
window. -/
theorem aggregateWindows_early_exit_cex :
    windowScorePair embedOne cacheKw ["kw"] [] ⟨"second", 1, 2⟩ = some (1, 0) ∧
    (1 : ℝ) > 0.85 ∧
    jsCeilHalf 2 ≤ 2 ∧
    aggregateWindows embedOne cacheKw ["kw"] [] 2 [⟨"first", 0, 1⟩, ⟨"second", 1, 2⟩] [] []
      = .ok ([1], [0]) ∧
    ([(1 : ℝ)] : List ℝ).length ≠ 2 := by
  refine ⟨windowScorePair_one _, by norm_num, by decide, ?_, by decide⟩
  have h := aggregateWindows_exit_aux embedOne cacheKw ["kw"] [] 2
    [((1 : ℝ), (0 : ℝ))] [⟨"first", 0, 1⟩, ⟨"second", 1, 2⟩] [] [] (by simp)
    (by simp [windowScorePair_one])
    (by
      intro j p _ hlt
      simp at hlt)
    (by
      intro p hg
      simp at hg
      subst hg
      exact ⟨by norm_num, by decide⟩)
  simpa using h

/-- A mock backend for the C6 witness that embeds only the first window's
text and throws on every other text: the theorem shows the aggregator never
reaches the second window. -/
noncomputable def embedFirstOnly : String → Except String EmbVec :=
  fun t => if t = "first" then .ok [(1 : ℝ)] else .error "window after the exit was processed"

/-- Witness for C6: two windows with the first one triggering the early
exit (score 1 > 0.85 at position 1 = ceil(2 × 0.5)); a backend that throws
on the second window's text still yields the first window's scores, so the
second window is never embedded. -/
theorem aggregateWindows_early_exit_witness :
    aggregateWindows embedFirstOnly cacheKw ["kw"] [] 2
      [⟨"first", 0, 1⟩, ⟨"second", 1, 2⟩] [] [] = .ok ([1], [0]) := by
  have h := aggregateWindows_early_exit embedOne cacheKw ["kw"] []
    [⟨"first", 0, 1⟩, ⟨"second", 1, 2⟩] [((1 : ℝ), (0 : ℝ))] (by simp)
    (by simp [windowScorePair_one])
    (by
      intro j p _ hlt
      simp at hlt)
    (by
      intro p hg
      simp at hg
      subst hg
      exact ⟨by norm_num, by decide⟩)
    embedFirstOnly
    (by
      intro w hw
      simp at hw
      subst hw
      rfl)
  simpa using h
